import Mathlib

/-!
PirlGuard: the chain-reorganisation attack guard.

A shallow embedding of `core/pirlguard.go`.

* `uint64` values are natural numbers below `2 ^ 64`; `uint64` subtraction is
  `subU64`, which wraps.
* `int64` values are integers; every `int64` operation of the source is followed
  by `toInt64`, the two's-complement wrap into `[-2 ^ 63, 2 ^ 63)`.
* The process-wide `syncStatus` flag is passed in and returned explicitly.
* A Go run-time panic (index out of range) is the result `none`.
* The difficulty of a block is a `*big.Int`, taken as a natural number of any
  size; `Uint64` is the conversion `big.Int.Uint64()` the guard applies to it,
  which keeps the low 64 bits.
* `params.PirlGuardActivationBlock` and `params.PirlGuardBlockLength` are
  declared outside the guard's file; they are taken as configuration values.
-/

namespace PirlGuard

/-! Section: Machine integers -/

/-- The conversion of an integer to `int64`: two's-complement wrap-around. -/
def toInt64 (z : Int) : Int := (z + 2 ^ 63) % 2 ^ 64 - 2 ^ 63

/-- The `uint64` subtraction `a - b`, wrapping modulo `2 ^ 64`. -/
def subU64 (a b : Nat) : Nat := (a + 2 ^ 64 - b % 2 ^ 64) % 2 ^ 64

/-- The conversion `big.Int.Uint64()` of a non-negative big integer: its low 64
bits. -/
def Uint64 (x : Nat) : Nat := x % 2 ^ 64

/-! Section: Data model -/

/-- A data structure to hold key/value pairs (`Key : uint64`, `Value : int64`). -/
structure Pair where
  Key : Nat
  Value : Int
  deriving DecidableEq

/-- A slice of pairs. -/
abbrev PairList := List Pair

/-- The part of a block the guard reads: `NumberU64()`, a `uint64`, and
`Difficulty()`, a non-negative `*big.Int` of any size. -/
structure Block where
  NumberU64 : Nat
  Difficulty : Nat
  deriving DecidableEq

/-- The candidate sequence `types.Blocks`. -/
abbrev Blocks := List Block

/-- The part of the chain the guard reads: its current block. -/
structure BlockChain where
  CurrentBlock : Block
  deriving DecidableEq

/-- The two chain parameters the guard reads, after the conversions the source
applies to them: `uint64(params.PirlGuardActivationBlock)` and
`int(params.PirlGuardBlockLength)`. -/
structure Params where
  PirlGuardActivationBlock : Nat
  PirlGuardBlockLength : Int
  deriving DecidableEq

/-- The only error the guard returns. -/
inductive GuardError where
  | ErrDelayTooHigh
  deriving DecidableEq

/-- The map `timeMap : map[uint64]int64`, as an association list with at most
one entry per key. -/
abbrev TimeMap := List Pair

/-- The assignment `m[k] = v`: overwrite the entry of `k` if there is one, add
one otherwise. -/
def mapSet (m : TimeMap) (k : Nat) (v : Int) : TimeMap :=
  match m with
  | [] => [⟨k, v⟩]
  | e :: rest => if e.Key = k then ⟨k, v⟩ :: rest else e :: mapSet rest k v

/-- The lookup `m[k]`, when the key is present. -/
def mapGet (m : TimeMap) (k : Nat) : Option Int :=
  match m with
  | [] => none
  | e :: rest => if e.Key = k then some e.Value else mapGet rest k

/-! Section: The pure helpers -/

/-- Source: `calculatePenaltyTimeForBlock`. -/
def calculatePenaltyTimeForBlock (tipOfTheMainChain incomingBlock : Nat) : Int :=
  if incomingBlock < tipOfTheMainChain then
    toInt64 (subU64 tipOfTheMainChain incomingBlock)
  else if incomingBlock = tipOfTheMainChain then
    0
  else if incomingBlock > tipOfTheMainChain then
    -1
  else
    0

/-- Source: `calculateMulti`. -/
def calculateMulti (diff : Nat) : Nat :=
  if diff ≤ 500000000 then 5
  else if diff ≥ 500000000 ∧ diff < 20000000000 then 4
  else if diff ≥ 20000000000 ∧ diff < 30000000000 then 3
  else if diff ≥ 30000000000 ∧ diff < 50000000000 then 2
  else if diff ≥ 50000000000 then 1
  else 1

/-- Source: `PairList.Less`, on two pairs. -/
def Pair.less (a b : Pair) : Bool := decide (a.Key < b.Key)

/-- Source: `PairList.Len`. -/
def PairList.Len (p : PairList) : Nat := p.length

/-- Source: `PairList.Less`; `none` when an index is out of range. -/
def PairList.Less (p : PairList) (i j : Nat) : Option Bool :=
  match p.get? i, p.get? j with
  | some a, some b => some (Pair.less a b)
  | _, _ => none

/-- The order `sort.Sort` establishes between neighbours: the later element is
not `Less` than the earlier one. -/
def Pair.notAfter (a b : Pair) : Prop := ¬ (Pair.less b a = true)

instance Pair.notAfter.decidable : DecidableRel Pair.notAfter :=
  fun a b => inferInstanceAs (Decidable (¬ (Pair.less b a = true)))

/-- The call `sort.Sort(p)`: the pairs in the order given by `Less`. -/
def sortPairs (p : PairList) : PairList := List.insertionSort Pair.notAfter p

/-! Section: The guard -/

/-- Lines 41-49: the update of `syncStatus`; `none` when `blocks[0]` is out of
range. -/
def updateSyncStatus (syncStatus : Bool) (tipOfTheMainChain : Nat) (blocks : Blocks) :
    Option Bool :=
  if !syncStatus then
    match blocks with
    | [] => none
    | b0 :: _ =>
      if tipOfTheMainChain = subU64 b0.NumberU64 1 then some true else some false
  else
    some syncStatus

/-- Lines 75-77: the loop that records a penalty for every candidate block. -/
def fillTimeMap (tipOfTheMainChain : Nat) (blocks : Blocks) (timeMap : TimeMap) : TimeMap :=
  blocks.foldl
    (fun m b => mapSet m b.NumberU64 (calculatePenaltyTimeForBlock tipOfTheMainChain b.NumberU64))
    timeMap

/-- Lines 52-79: the penalty map, filled only when the guard is active, the node
is synced and the sequence is long enough. -/
def buildTimeMap (params : Params) (bc : BlockChain) (syncStatus : Bool) (blocks : Blocks) :
    TimeMap :=
  if blocks.length > 0 ∧ bc.CurrentBlock.NumberU64 > params.PirlGuardActivationBlock then
    if syncStatus = true ∧ (blocks.length : Int) ≥ params.PirlGuardBlockLength then
      fillTimeMap bc.CurrentBlock.NumberU64 blocks []
    else []
  else []

/-- Lines 81-87: the pair list made from the map, sorted. The entries are taken
in the order the association list holds them. -/
def pairListOf (timeMap : TimeMap) : PairList := sortPairs timeMap

/-- Lines 88-91: the sum of the values, in `int64`. -/
def sumPenalty (p : PairList) : Int :=
  p.foldl (fun penalty v => toInt64 (penalty + v.Value)) 0

/-- Lines 93-94: the sum multiplied by the difficulty multiplier, in `int64`.
The multiplier is computed from `bc.CurrentBlock().Difficulty().Uint64()`. -/
def scalePenalty (bc : BlockChain) (penalty : Int) : Int :=
  toInt64 (penalty * toInt64 (calculateMulti (Uint64 bc.CurrentBlock.Difficulty)))

/-- Lines 96-98: a negative penalty is set to zero. -/
def clampPenalty (penalty : Int) : Int := if penalty < 0 then 0 else penalty

/-- Lines 106-119: the error returned for a penalty. -/
def verdictOf (penalty : Int) : Option GuardError :=
  let err : Option GuardError := none
  let err := if penalty > 0 then some GuardError.ErrDelayTooHigh else err
  let err := if penalty = 0 then none else err
  err

/-- What one call leaves behind: the new `syncStatus`, the penalty map, the
sorted pair list, the penalty before and after clamping, and the returned
error (`none` is `nil`). -/
structure Outcome where
  syncStatus : Bool
  timeMap : TimeMap
  p : PairList
  scaled : Int
  penalty : Int
  err : Option GuardError
  deriving DecidableEq

/-- Source: `BlockChain.checkChainForAttack`. The result is `none` when the call
panics on `blocks[0]`. -/
def checkChainForAttack (params : Params) (bc : BlockChain) (syncStatus : Bool)
    (blocks : Blocks) : Option Outcome :=
  let tipOfTheMainChain := bc.CurrentBlock.NumberU64
  match updateSyncStatus syncStatus tipOfTheMainChain blocks with
  | none => none
  | some syncStatus =>
    let timeMap := buildTimeMap params bc syncStatus blocks
    let p := pairListOf timeMap
    let penalty := sumPenalty p
    let scaled := scalePenalty bc penalty
    let penalty := clampPenalty scaled
    -- line 101: the log context evaluates `blocks[0].NumberU64() - 1`
    match blocks with
    | [] => none
    | _ :: _ =>
      some ⟨syncStatus, timeMap, p, scaled, penalty, verdictOf penalty⟩

/-- The blocks at the given heights (the guard does not read the difficulty of a
candidate block). -/
def blocksAt (heights : List Nat) : Blocks := heights.map (fun h => ⟨h, 0⟩)

/-- A chain whose current block has the given height and difficulty. -/
def chainAt (tip diff : Nat) : BlockChain := ⟨⟨tip, diff⟩⟩

/-- The distinct heights of a candidate sequence. -/
def distinctHeights (blocks : Blocks) : List Nat := (blocks.map Block.NumberU64).dedup

/-- The sum of `calculatePenaltyTimeForBlock tip h` over the distinct candidate
heights `h`, as an exact integer. -/
def distinctPenaltySum (tip : Nat) (blocks : Blocks) : Int :=
  ((distinctHeights blocks).map (calculatePenaltyTimeForBlock tip)).sum

/-- The raw sum as the specification words it: the sum over the distinct
candidate heights when the tip is above the activation height, the sync status
after the latch update is true and the sequence is at least the minimum segment
length; `0` otherwise. -/
def specRawSum (params : Params) (bc : BlockChain) (synced : Bool) (blocks : Blocks) : Int :=
  if bc.CurrentBlock.NumberU64 > params.PirlGuardActivationBlock ∧ synced = true ∧
      (blocks.length : Int) ≥ params.PirlGuardBlockLength then
    distinctPenaltySum bc.CurrentBlock.NumberU64 blocks
  else 0

/-- The sync status a call works with after the latch update of lines 41-49,
for a sequence whose first block is `b0`. -/
def statusAfterLatch (syncStatus : Bool) (tip : Nat) (b0 : Block) : Bool :=
  syncStatus || decide (tip = subU64 b0.NumberU64 1)

/-- A finite sequence of calls, each with its own chain state and candidate
sequence, threading the process-wide `syncStatus` from one call to the next.
The result lists the sync status after every call; it is `none` when a call
panics. -/
def runCalls (params : Params) (syncStatus : Bool) :
    List (BlockChain × Blocks) → Option (List Bool)
  | [] => some []
  | (bc, blocks) :: calls =>
    match checkChainForAttack params bc syncStatus blocks with
    | none => none
    | some o =>
      match runCalls params o.syncStatus calls with
      | none => none
      | some tr => some (o.syncStatus :: tr)

set_option maxRecDepth 100000

/-! Section: Machine-integer lemmas -/

theorem toInt64_of_range (z : Int) (h1 : -2 ^ 63 ≤ z) (h2 : z < 2 ^ 63) : toInt64 z = z := by
  unfold toInt64
  omega

theorem toInt64_add_left (a b : Int) : toInt64 (toInt64 a + b) = toInt64 (a + b) := by
  unfold toInt64
  omega

theorem subU64_of_le (a b : Nat) (ha : a < 2 ^ 64) (hb : b ≤ a) : subU64 a b = a - b := by
  unfold subU64
  omega

theorem subU64_one_iff (T F : Nat) (hF1 : 1 ≤ F) (hF : F < 2 ^ 64) :
    T = subU64 F 1 ↔ T + 1 = F := by
  unfold subU64
  omega

/-! Section: The pure helpers -/

/-- C2 (as amended). For heights `T`, `C` below `2 ^ 64`:
`calculatePenaltyTimeForBlock T C` is `T - C` when `C < T` and the difference
is below `2 ^ 63`, it is `T - C - 2 ^ 64` (the `int64` reading of the
difference) when `C < T` and the difference is `2 ^ 63` or more, it is `0`
when `C = T` and `-1` when `C > T`. -/
theorem calculatePenaltyTimeForBlock_cases (T C : Nat) (hT : T < 2 ^ 64) (hC : C < 2 ^ 64) :
    (C < T → T - C < 2 ^ 63 → calculatePenaltyTimeForBlock T C = (T : Int) - C) ∧
    (C < T → 2 ^ 63 ≤ T - C → calculatePenaltyTimeForBlock T C = (T : Int) - C - 2 ^ 64) ∧
    (C = T → calculatePenaltyTimeForBlock T C = 0) ∧
    (T < C → calculatePenaltyTimeForBlock T C = -1) := by
  refine ⟨?_, ?_, ?_, ?_⟩
  · intro h hd
    simp only [calculatePenaltyTimeForBlock, if_pos h, toInt64]
    rw [subU64_of_le T C hT (Nat.le_of_lt h)]
    omega
  · intro h hd
    simp only [calculatePenaltyTimeForBlock, if_pos h, toInt64]
    rw [subU64_of_le T C hT (Nat.le_of_lt h)]
    omega
  · intro h
    subst h
    simp [calculatePenaltyTimeForBlock]
  · intro h
    have h1 : ¬ C < T := by omega
    have h2 : ¬ C = T := by omega
    simp [calculatePenaltyTimeForBlock, h1, h2, h]

/-- Witness for `calculatePenaltyTimeForBlock_cases` at tip 1000, candidate 990. -/
theorem calculatePenaltyTimeForBlock_cases_witness :
    calculatePenaltyTimeForBlock 1000 990 = ((1000 : Nat) : Int) - (990 : Nat) :=
  (calculatePenaltyTimeForBlock_cases 1000 990 (by decide) (by decide)).1
    (by decide) (by decide)

/-- C2 (counterexample). At tip `2 ^ 63` and candidate height `0` the candidate
is below the tip, yet the result is `-2 ^ 63`, not the difference `2 ^ 63`. -/
theorem calculatePenaltyTimeForBlock_wraps :
    (0 : Nat) < 2 ^ 63 ∧ (2 ^ 63 : Nat) < 2 ^ 64 ∧
    calculatePenaltyTimeForBlock (2 ^ 63) 0 = -2 ^ 63 ∧
    calculatePenaltyTimeForBlock (2 ^ 63) 0 ≠ ((2 ^ 63 : Nat) : Int) - ((0 : Nat) : Int) := by
  decide

/-- C3. `calculateMulti` is the five-band step function, the first band winning
at `500000000`; `0` gives 5, `25000000000` gives 3, `100000000000` gives 1. -/
theorem calculateMulti_bands (d : Nat) :
    (d ≤ 500000000 → calculateMulti d = 5) ∧
    (500000000 < d → d < 20000000000 → calculateMulti d = 4) ∧
    (20000000000 ≤ d → d < 30000000000 → calculateMulti d = 3) ∧
    (30000000000 ≤ d → d < 50000000000 → calculateMulti d = 2) ∧
    (50000000000 ≤ d → calculateMulti d = 1) ∧
    calculateMulti 500000000 = 5 ∧ calculateMulti 0 = 5 ∧
    calculateMulti 25000000000 = 3 ∧ calculateMulti 100000000000 = 1 := by
  refine ⟨?_, ?_, ?_, ?_, ?_, by decide, by decide, by decide, by decide⟩
  all_goals
    intros
    unfold calculateMulti
    repeat' split
    all_goals omega

/-- Witness for `calculateMulti_bands` at difficulty 600000000. -/
theorem calculateMulti_bands_witness : calculateMulti 600000000 = 4 :=
  (calculateMulti_bands 600000000).2.1 (by decide) (by decide)

theorem calculateMulti_range (d : Nat) : 1 ≤ calculateMulti d ∧ calculateMulti d ≤ 5 := by
  unfold calculateMulti
  repeat' split
  all_goals omega


/-! Section: The guard: shape of a call -/

theorem updateSyncStatus_cons (s : Bool) (tip : Nat) (b0 : Block) (rest : Blocks) :
    updateSyncStatus s tip (b0 :: rest) = some (statusAfterLatch s tip b0) := by
  cases s
  · by_cases h : tip = subU64 b0.NumberU64 1 <;> simp [updateSyncStatus, statusAfterLatch, h]
  · simp [updateSyncStatus, statusAfterLatch]

theorem checkChainForAttack_cons (params : Params) (bc : BlockChain) (s : Bool) (b0 : Block)
    (rest : Blocks) :
    checkChainForAttack params bc s (b0 :: rest) =
      some ⟨statusAfterLatch s bc.CurrentBlock.NumberU64 b0,
        buildTimeMap params bc (statusAfterLatch s bc.CurrentBlock.NumberU64 b0) (b0 :: rest),
        pairListOf (buildTimeMap params bc
          (statusAfterLatch s bc.CurrentBlock.NumberU64 b0) (b0 :: rest)),
        scalePenalty bc (sumPenalty (pairListOf (buildTimeMap params bc
          (statusAfterLatch s bc.CurrentBlock.NumberU64 b0) (b0 :: rest)))),
        clampPenalty (scalePenalty bc (sumPenalty (pairListOf (buildTimeMap params bc
          (statusAfterLatch s bc.CurrentBlock.NumberU64 b0) (b0 :: rest))))),
        verdictOf (clampPenalty (scalePenalty bc (sumPenalty (pairListOf (buildTimeMap params bc
          (statusAfterLatch s bc.CurrentBlock.NumberU64 b0) (b0 :: rest))))))⟩ := by
  simp only [checkChainForAttack, updateSyncStatus_cons]

theorem scalePenalty_zero (bc : BlockChain) : scalePenalty bc 0 = 0 := by
  simp [scalePenalty, toInt64]

theorem verdictOf_pos (z : Int) (h : 0 < z) : verdictOf z = some GuardError.ErrDelayTooHigh := by
  have h0 : ¬ z = 0 := by omega
  simp [verdictOf, h, h0]

theorem verdictOf_zero : verdictOf 0 = none := by
  simp [verdictOf]

theorem clampPenalty_eq_max (z : Int) : clampPenalty z = max 0 z := by
  unfold clampPenalty
  split <;> omega

/-- C4 (as amended). In the reorg-attack scenario (tip 1000, activation height 0,
minimum segment length 5, synced, difficulty 100000000, candidate heights
990..994) the call returns `ErrDelayTooHigh` and the total scaled penalty is
200: the penalties are 10, 9, 8, 7, 6, their sum is 40, the multiplier is 5. -/
theorem reorg_attack_scenario :
    (checkChainForAttack ⟨0, 5⟩ (chainAt 1000 100000000) true
      (blocksAt [990, 991, 992, 993, 994])).map (fun o => (o.p, o.penalty, o.err)) =
    some ([⟨990, 10⟩, ⟨991, 9⟩, ⟨992, 8⟩, ⟨993, 7⟩, ⟨994, 6⟩], 200,
      some GuardError.ErrDelayTooHigh) := by
  decide

/-- C4 (counterexample). In the reorg-attack scenario the call rejects, but the
total scaled penalty it computes is not 250. -/
theorem reorg_attack_scenario_not_250 :
    (checkChainForAttack ⟨0, 5⟩ (chainAt 1000 100000000) true
      (blocksAt [990, 991, 992, 993, 994])).map (fun o => o.err) =
      some (some GuardError.ErrDelayTooHigh) ∧
    (checkChainForAttack ⟨0, 5⟩ (chainAt 1000 100000000) true
      (blocksAt [990, 991, 992, 993, 994])).map (fun o => o.penalty) ≠ some 250 := by
  decide

/-- C5. For a sequence with first block `b0`, the call succeeds and the sync
status it leaves is: `true` if the incoming status is `true`; otherwise `true`
if the tip equals the first height minus one (in `uint64`), `false` in every
other case. -/
theorem syncStatus_after_call (params : Params) (bc : BlockChain) (s : Bool) (b0 : Block)
    (rest : Blocks) :
    updateSyncStatus s bc.CurrentBlock.NumberU64 (b0 :: rest) =
      some (if s = true then true
        else if bc.CurrentBlock.NumberU64 = subU64 b0.NumberU64 1 then true else false) ∧
    ∃ o, checkChainForAttack params bc s (b0 :: rest) = some o ∧
      o.syncStatus = (if s = true then true
        else if bc.CurrentBlock.NumberU64 = subU64 b0.NumberU64 1 then true else false) := by
  refine ⟨?_, ?_⟩
  · cases s
    · by_cases h : bc.CurrentBlock.NumberU64 = subU64 b0.NumberU64 1 <;>
        simp [updateSyncStatus, h]
    · simp [updateSyncStatus]
  · rw [checkChainForAttack_cons]
    refine ⟨_, rfl, ?_⟩
    cases s <;> simp [statusAfterLatch]

/-- C6 (the code at the failing input). For the empty candidate sequence the
call panics on `blocks[0]`, whatever the tip, difficulty, configuration and
incoming sync status: it returns no verdict. -/
theorem checkChainForAttack_nil (params : Params) (bc : BlockChain) (s : Bool) :
    checkChainForAttack params bc s [] = none := by
  cases s <;> simp [checkChainForAttack, updateSyncStatus]

/-- C7. Guard inactivity: when the tip is at or below the activation height,
for every non-empty candidate sequence, difficulty, minimum segment length and
incoming sync status, the penalty map is empty, the total penalty is 0 and the
call returns no error. -/
theorem guard_inactive (params : Params) (bc : BlockChain) (s : Bool) (b0 : Block)
    (rest : Blocks) (h : bc.CurrentBlock.NumberU64 ≤ params.PirlGuardActivationBlock) :
    ∃ o, checkChainForAttack params bc s (b0 :: rest) = some o ∧
      o.timeMap = [] ∧ o.penalty = 0 ∧ o.err = none := by
  rw [checkChainForAttack_cons]
  have hb : ∀ s', buildTimeMap params bc s' (b0 :: rest) = [] := by
    intro s'
    have : ¬ bc.CurrentBlock.NumberU64 > params.PirlGuardActivationBlock := by omega
    simp [buildTimeMap, this]
  refine ⟨_, rfl, ?_, ?_, ?_⟩
  · exact hb _
  · simp [hb, pairListOf, sortPairs, sumPenalty, scalePenalty_zero, clampPenalty]
  · simp [hb, pairListOf, sortPairs, sumPenalty, scalePenalty_zero, clampPenalty, verdictOf]

/-- Witness for `guard_inactive`: tip 10 with activation height 10. -/
theorem guard_inactive_witness :
    ∃ o, checkChainForAttack ⟨10, 5⟩ (chainAt 10 100000000) true
        (⟨3, 0⟩ :: blocksAt [4, 5, 6, 7, 8]) = some o ∧
      o.timeMap = [] ∧ o.penalty = 0 ∧ o.err = none :=
  guard_inactive ⟨10, 5⟩ (chainAt 10 100000000) true ⟨3, 0⟩ (blocksAt [4, 5, 6, 7, 8])
    (by decide)

/-! Section: The penalty map -/

theorem mapSet_keys (m : TimeMap) (k : Nat) (v : Int) :
    (mapSet m k v).map Pair.Key =
      if k ∈ m.map Pair.Key then m.map Pair.Key else m.map Pair.Key ++ [k] := by
  induction m with
  | nil => simp [mapSet]
  | cons e rest ih =>
    by_cases h : e.Key = k
    · simp [mapSet, h]
    · have h' : ¬ k = e.Key := fun hk => h hk.symm
      by_cases hm : k ∈ rest.map Pair.Key
      · simp only [mapSet, if_neg h, List.map_cons, ih, if_pos hm, List.mem_cons, h', false_or]
      · simp only [mapSet, if_neg h, List.map_cons, ih, if_neg hm, List.mem_cons, h', false_or,
          List.cons_append]

theorem mapSet_mem_keys (m : TimeMap) (k : Nat) (v : Int) (x : Nat) :
    x ∈ (mapSet m k v).map Pair.Key ↔ x = k ∨ x ∈ m.map Pair.Key := by
  rw [mapSet_keys]
  split
  · constructor
    · intro h; exact Or.inr h
    · rintro (h | h)
      · subst h; assumption
      · exact h
  · simp [or_comm]

theorem mapSet_nodup (m : TimeMap) (k : Nat) (v : Int) (h : (m.map Pair.Key).Nodup) :
    ((mapSet m k v).map Pair.Key).Nodup := by
  rw [mapSet_keys]
  split
  · exact h
  · rename_i hk
    rw [List.nodup_append]
    refine ⟨h, List.nodup_singleton k, ?_⟩
    intro a ha hb
    simp at hb
    subst hb
    exact hk ha

theorem mapSet_values (f : Nat → Int) (m : TimeMap) (k : Nat)
    (h : ∀ e ∈ m, e.Value = f e.Key) : ∀ e ∈ mapSet m k (f k), e.Value = f e.Key := by
  induction m with
  | nil => simp [mapSet]
  | cons e rest ih =>
    have he := h e (List.mem_cons_self _ _)
    have hr : ∀ x ∈ rest, x.Value = f x.Key := fun x hx => h x (List.mem_cons_of_mem _ hx)
    by_cases hk : e.Key = k
    · intro x hx
      simp only [mapSet, if_pos hk, List.mem_cons] at hx
      rcases hx with hx | hx
      · subst hx; rfl
      · exact hr x hx
    · intro x hx
      simp only [mapSet, if_neg hk, List.mem_cons] at hx
      rcases hx with hx | hx
      · subst hx; exact he
      · exact ih hr x hx

theorem fillTimeMap_nodup (tip : Nat) (blocks : Blocks) (m : TimeMap)
    (h : (m.map Pair.Key).Nodup) : ((fillTimeMap tip blocks m).map Pair.Key).Nodup := by
  induction blocks generalizing m with
  | nil => simpa [fillTimeMap] using h
  | cons b rest ih =>
    simp only [fillTimeMap, List.foldl_cons]
    exact ih _ (mapSet_nodup m _ _ h)

theorem fillTimeMap_mem_keys (tip : Nat) (blocks : Blocks) (m : TimeMap) (x : Nat) :
    x ∈ (fillTimeMap tip blocks m).map Pair.Key ↔
      x ∈ blocks.map Block.NumberU64 ∨ x ∈ m.map Pair.Key := by
  induction blocks generalizing m with
  | nil => simp [fillTimeMap]
  | cons b rest ih =>
    simp only [fillTimeMap, List.foldl_cons]
    have := ih (mapSet m b.NumberU64 (calculatePenaltyTimeForBlock tip b.NumberU64))
    simp only [fillTimeMap] at this
    rw [this, mapSet_mem_keys]
    simp only [List.map_cons, List.mem_cons]
    tauto

theorem fillTimeMap_values (tip : Nat) (blocks : Blocks) (m : TimeMap)
    (h : ∀ e ∈ m, e.Value = calculatePenaltyTimeForBlock tip e.Key) :
    ∀ e ∈ fillTimeMap tip blocks m, e.Value = calculatePenaltyTimeForBlock tip e.Key := by
  induction blocks generalizing m with
  | nil => simpa [fillTimeMap] using h
  | cons b rest ih =>
    simp only [fillTimeMap, List.foldl_cons]
    exact ih _ (mapSet_values (calculatePenaltyTimeForBlock tip) m b.NumberU64 h)

theorem map_eq_of_values (f : Nat → Int) (m : TimeMap) (h : ∀ e ∈ m, e.Value = f e.Key) :
    m = (m.map Pair.Key).map (fun k => (⟨k, f k⟩ : Pair)) := by
  induction m with
  | nil => rfl
  | cons e rest ih =>
    have he := h e (List.mem_cons_self _ _)
    have hr : ∀ x ∈ rest, x.Value = f x.Key := fun x hx => h x (List.mem_cons_of_mem _ hx)
    simp only [List.map_cons]
    rw [← ih hr, ← he]

theorem fillTimeMap_perm (tip : Nat) (blocks : Blocks) :
    List.Perm (fillTimeMap tip blocks [])
      ((distinctHeights blocks).map
        (fun k => (⟨k, calculatePenaltyTimeForBlock tip k⟩ : Pair))) := by
  have hv := fillTimeMap_values tip blocks [] (by simp)
  have hn := fillTimeMap_nodup tip blocks [] (by simp)
  rw [map_eq_of_values _ _ hv]
  apply List.Perm.map
  unfold distinctHeights
  rw [List.perm_ext_iff_of_nodup hn (List.nodup_dedup _)]
  intro x
  rw [fillTimeMap_mem_keys]
  simp

theorem mapGet_of_values (f : Nat → Int) (m : TimeMap) (h : ∀ e ∈ m, e.Value = f e.Key)
    (k : Nat) : mapGet m k = if k ∈ m.map Pair.Key then some (f k) else none := by
  induction m with
  | nil => simp [mapGet]
  | cons e rest ih =>
    have he := h e (List.mem_cons_self _ _)
    have hr : ∀ x ∈ rest, x.Value = f x.Key := fun x hx => h x (List.mem_cons_of_mem _ hx)
    by_cases hk : e.Key = k
    · simp [mapGet, hk, he]
    · have hk' : ¬ k = e.Key := fun x => hk x.symm
      simp only [mapGet, if_neg hk, ih hr, List.map_cons, List.mem_cons, hk', false_or]

/-! Section: Sorting and summing -/

theorem sortPairs_perm (l : PairList) : List.Perm (sortPairs l) l :=
  List.perm_insertionSort _ l

theorem sortPairs_sorted (l : PairList) :
    List.Pairwise (fun a b : Pair => a.Key ≤ b.Key) (sortPairs l) := by
  haveI : IsTotal Pair Pair.notAfter :=
    ⟨fun a b => by simp only [Pair.notAfter, Pair.less, decide_eq_true_eq]; omega⟩
  haveI : IsTrans Pair Pair.notAfter :=
    ⟨fun a b c => by simp only [Pair.notAfter, Pair.less, decide_eq_true_eq]; omega⟩
  have h : List.Sorted Pair.notAfter (sortPairs l) := List.sorted_insertionSort _ l
  refine List.Pairwise.imp ?_ h
  intro a b
  simp only [Pair.notAfter, Pair.less, decide_eq_true_eq]
  omega

theorem sortPairs_strict (l : PairList) (h : (l.map Pair.Key).Nodup) :
    List.Pairwise (fun a b : Pair => a.Key < b.Key) (sortPairs l) := by
  have hn : ((sortPairs l).map Pair.Key).Nodup :=
    ((sortPairs_perm l).map Pair.Key).nodup_iff.2 h
  have hne : List.Pairwise (fun a b : Pair => a.Key ≠ b.Key) (sortPairs l) :=
    List.pairwise_map.1 hn
  refine List.Pairwise.imp ?_ ((sortPairs_sorted l).and hne)
  intro a b hab
  omega

theorem strict_sorted_eq_of_perm (l1 l2 : PairList) (hp : List.Perm l1 l2)
    (h1 : List.Pairwise (fun a b : Pair => a.Key < b.Key) l1)
    (h2 : List.Pairwise (fun a b : Pair => a.Key < b.Key) l2) : l1 = l2 := by
  haveI : IsAntisymm Pair (fun a b : Pair => a.Key < b.Key) :=
    ⟨fun a b hab hba => absurd hab (by omega)⟩
  exact List.eq_of_perm_of_sorted hp h1 h2

theorem sortPairs_eq_of_perm (l1 l2 : PairList) (hp : List.Perm l1 l2)
    (h : (l1.map Pair.Key).Nodup) : sortPairs l1 = sortPairs l2 := by
  have h2 : (l2.map Pair.Key).Nodup := (hp.map Pair.Key).nodup_iff.1 h
  exact strict_sorted_eq_of_perm _ _
    (((sortPairs_perm l1).trans hp).trans (sortPairs_perm l2).symm)
    (sortPairs_strict l1 h) (sortPairs_strict l2 h2)

theorem foldl_toInt64 (p : PairList) (a : Int) :
    p.foldl (fun penalty v => toInt64 (penalty + v.Value)) (toInt64 a) =
      toInt64 (a + (p.map Pair.Value).sum) := by
  induction p generalizing a with
  | nil => simp
  | cons e rest ih =>
    simp only [List.foldl_cons, List.map_cons, List.sum_cons]
    rw [toInt64_add_left, ih, add_assoc]

theorem sumPenalty_eq (p : PairList) : sumPenalty p = toInt64 ((p.map Pair.Value).sum) := by
  have h0 : toInt64 0 = 0 := by decide
  have := foldl_toInt64 p 0
  rw [h0, zero_add] at this
  exact this

theorem toInt64_mul_multi (z : Int) (d : Nat) :
    toInt64 (toInt64 z * toInt64 (calculateMulti d)) = toInt64 (z * (calculateMulti d : Int)) := by
  have h := calculateMulti_range d
  generalize calculateMulti d = m at h
  obtain ⟨h1, h2⟩ := h
  interval_cases m <;> simp only [toInt64] <;> omega

theorem scaled_of_timeMap (bc : BlockChain) (tm : TimeMap) :
    scalePenalty bc (sumPenalty (pairListOf tm)) =
      toInt64 ((tm.map Pair.Value).sum *
        (calculateMulti (Uint64 bc.CurrentBlock.Difficulty) : Int)) := by
  rw [scalePenalty, sumPenalty_eq, toInt64_mul_multi, pairListOf,
    ((sortPairs_perm tm).map Pair.Value).sum_eq]

theorem buildTimeMap_sum (params : Params) (bc : BlockChain) (s : Bool) (b0 : Block)
    (rest : Blocks) :
    ((buildTimeMap params bc s (b0 :: rest)).map Pair.Value).sum =
      specRawSum params bc s (b0 :: rest) := by
  unfold buildTimeMap specRawSum
  by_cases h1 : bc.CurrentBlock.NumberU64 > params.PirlGuardActivationBlock
  · by_cases h2 : s = true ∧ ((b0 :: rest).length : Int) ≥ params.PirlGuardBlockLength
    · have h3 : bc.CurrentBlock.NumberU64 > params.PirlGuardActivationBlock ∧ s = true ∧
          ((b0 :: rest).length : Int) ≥ params.PirlGuardBlockLength := ⟨h1, h2⟩
      have h4 : (b0 :: rest).length > 0 ∧
          bc.CurrentBlock.NumberU64 > params.PirlGuardActivationBlock := ⟨by simp, h1⟩
      rw [if_pos h4, if_pos h2, if_pos h3, distinctPenaltySum,
        ((fillTimeMap_perm bc.CurrentBlock.NumberU64 (b0 :: rest)).map Pair.Value).sum_eq,
        List.map_map]
      rfl
    · have h3 : ¬ (bc.CurrentBlock.NumberU64 > params.PirlGuardActivationBlock ∧ s = true ∧
          ((b0 :: rest).length : Int) ≥ params.PirlGuardBlockLength) := fun h => h2 h.2
      have h4 : (b0 :: rest).length > 0 ∧
          bc.CurrentBlock.NumberU64 > params.PirlGuardActivationBlock := ⟨by simp, h1⟩
      rw [if_pos h4, if_neg h2, if_neg h3]
      rfl
  · have h3 : ¬ (bc.CurrentBlock.NumberU64 > params.PirlGuardActivationBlock ∧ s = true ∧
        ((b0 :: rest).length : Int) ≥ params.PirlGuardBlockLength) := fun h => h1 h.1
    have h4 : ¬ ((b0 :: rest).length > 0 ∧
        bc.CurrentBlock.NumberU64 > params.PirlGuardActivationBlock) := fun h => h1 h.2
    rw [if_neg h4, if_neg h3]
    rfl

theorem verdictOf_clamp (z : Int) :
    (verdictOf (clampPenalty z) = some GuardError.ErrDelayTooHigh ↔ 0 < clampPenalty z) ∧
    (verdictOf (clampPenalty z) = none ↔ clampPenalty z = 0) := by
  unfold clampPenalty
  by_cases h : z < 0
  · simp [h, verdictOf]
  · by_cases h0 : z = 0
    · subst h0; simp [verdictOf]
    · have hp : 0 < z := by omega
      simp [h, verdictOf, hp, h0]

/-- C1. For a non-empty candidate sequence, with `S` the sum of
`calculatePenaltyTimeForBlock tip h` over the distinct candidate heights `h` if
the tip is above the activation height, the sync status after the latch update
is true and the length is at least the minimum segment length, and `S = 0`
otherwise, and `difficulty` the `uint64` the call reads from the chain: when
`calculateMulti difficulty * S` fits in `int64`, the call computes the total
`max 0 (calculateMulti difficulty * S)`, returns
`ErrDelayTooHigh` exactly when the total is positive and `nil` exactly when it
is zero. -/
theorem checkChainForAttack_total (params : Params) (bc : BlockChain) (s : Bool) (b0 : Block)
    (rest : Blocks)
    (hlo : -2 ^ 63 ≤ (calculateMulti (Uint64 bc.CurrentBlock.Difficulty) : Int) *
      specRawSum params bc (statusAfterLatch s bc.CurrentBlock.NumberU64 b0) (b0 :: rest))
    (hhi : (calculateMulti (Uint64 bc.CurrentBlock.Difficulty) : Int) *
      specRawSum params bc (statusAfterLatch s bc.CurrentBlock.NumberU64 b0) (b0 :: rest)
        < 2 ^ 63) :
    ∃ o, checkChainForAttack params bc s (b0 :: rest) = some o ∧
      o.penalty = max 0 ((calculateMulti (Uint64 bc.CurrentBlock.Difficulty) : Int) *
        specRawSum params bc (statusAfterLatch s bc.CurrentBlock.NumberU64 b0) (b0 :: rest)) ∧
      (o.err = some GuardError.ErrDelayTooHigh ↔ 0 < o.penalty) ∧
      (o.err = none ↔ o.penalty = 0) := by
  rw [checkChainForAttack_cons]
  refine ⟨_, rfl, ?_, (verdictOf_clamp _).1, (verdictOf_clamp _).2⟩
  show clampPenalty _ = _
  rw [scaled_of_timeMap, buildTimeMap_sum, clampPenalty_eq_max, mul_comm, toInt64_of_range _ hlo hhi]

/-- Witness for `checkChainForAttack_total`: tip 100, synced, candidates at
heights 96, 97, 98, 99, 99 (one height repeated). -/
theorem checkChainForAttack_total_witness :
    ∃ o, checkChainForAttack ⟨0, 5⟩ (chainAt 100 100000000) true
        (⟨96, 0⟩ :: blocksAt [97, 98, 99, 99]) = some o ∧
      o.penalty = max 0
        ((calculateMulti (Uint64 (chainAt 100 100000000).CurrentBlock.Difficulty) : Int) *
        specRawSum ⟨0, 5⟩ (chainAt 100 100000000)
          (statusAfterLatch true (chainAt 100 100000000).CurrentBlock.NumberU64 ⟨96, 0⟩)
          (⟨96, 0⟩ :: blocksAt [97, 98, 99, 99])) ∧
      (o.err = some GuardError.ErrDelayTooHigh ↔ 0 < o.penalty) ∧
      (o.err = none ↔ o.penalty = 0) :=
  checkChainForAttack_total ⟨0, 5⟩ (chainAt 100 100000000) true ⟨96, 0⟩ (blocksAt [97, 98, 99, 99])
    (by decide) (by decide)

/-! Section: Candidates above the tip -/

theorem penalty_sum_above (tip : Nat) (l : List Nat) (h : ∀ x ∈ l, tip < x) :
    (l.map (calculatePenaltyTimeForBlock tip)).sum = -(l.length : Int) := by
  induction l with
  | nil => simp
  | cons x rest ih =>
    have hx : tip < x := h x (List.mem_cons_self _ _)
    have h1 : ¬ x < tip := by omega
    have h2 : ¬ x = tip := by omega
    have hr : ∀ y ∈ rest, tip < y := fun y hy => h y (List.mem_cons_of_mem _ hy)
    simp only [List.map_cons, List.sum_cons, ih hr, List.length_cons]
    simp only [calculatePenaltyTimeForBlock, if_neg h1, if_neg h2]
    have h3 : x > tip := hx
    rw [if_pos h3]
    push_cast
    omega

theorem distinctHeights_length (b0 : Block) (rest : Blocks) :
    1 ≤ (distinctHeights (b0 :: rest)).length ∧
      (distinctHeights (b0 :: rest)).length ≤ (b0 :: rest).length := by
  constructor
  · have hm : b0.NumberU64 ∈ distinctHeights (b0 :: rest) := by
      simp [distinctHeights]
    exact List.length_pos_of_mem hm
  · have := (List.dedup_sublist ((b0 :: rest).map Block.NumberU64)).length_le
    simpa [distinctHeights] using this

/-- C8. Clamping: for a non-empty candidate sequence (of a length a slice of
block pointers can have, below `2 ^ 60`) all of whose heights are strictly
above the tip, with the guard active, the sync status true after the latch
update and the length at least the minimum, the scaled sum before clamping is
negative, the total penalty is exactly 0 and the call returns no error. -/
theorem clamping_above_tip (params : Params) (bc : BlockChain) (s : Bool) (b0 : Block)
    (rest : Blocks)
    (hact : bc.CurrentBlock.NumberU64 > params.PirlGuardActivationBlock)
    (hsync : statusAfterLatch s bc.CurrentBlock.NumberU64 b0 = true)
    (hlen : ((b0 :: rest).length : Int) ≥ params.PirlGuardBlockLength)
    (habove : ∀ b ∈ b0 :: rest, bc.CurrentBlock.NumberU64 < b.NumberU64)
    (hsize : (b0 :: rest).length < 2 ^ 60) :
    ∃ o, checkChainForAttack params bc s (b0 :: rest) = some o ∧
      o.scaled < 0 ∧ o.penalty = 0 ∧ o.err = none := by
  rw [checkChainForAttack_cons]
  have hsum : specRawSum params bc (statusAfterLatch s bc.CurrentBlock.NumberU64 b0)
      (b0 :: rest) = -((distinctHeights (b0 :: rest)).length : Int) := by
    have hc : bc.CurrentBlock.NumberU64 > params.PirlGuardActivationBlock ∧
        statusAfterLatch s bc.CurrentBlock.NumberU64 b0 = true ∧
        ((b0 :: rest).length : Int) ≥ params.PirlGuardBlockLength := ⟨hact, hsync, hlen⟩
    rw [specRawSum, if_pos hc, distinctPenaltySum]
    apply penalty_sum_above
    intro x hx
    simp only [distinctHeights, List.mem_dedup, List.mem_map] at hx
    obtain ⟨b, hb, rfl⟩ := hx
    exact habove b hb
  have hscaled : scalePenalty bc (sumPenalty (pairListOf (buildTimeMap params bc
      (statusAfterLatch s bc.CurrentBlock.NumberU64 b0) (b0 :: rest)))) < 0 := by
    rw [scaled_of_timeMap, buildTimeMap_sum, hsum]
    obtain ⟨hn1, hn2⟩ := distinctHeights_length b0 rest
    have hm := calculateMulti_range (Uint64 bc.CurrentBlock.Difficulty)
    generalize calculateMulti (Uint64 bc.CurrentBlock.Difficulty) = m at hm
    generalize (distinctHeights (b0 :: rest)).length = n at hn1 hn2
    obtain ⟨hm1, hm2⟩ := hm
    have hn3 : n < 2 ^ 60 := by omega
    interval_cases m <;> (rw [toInt64_of_range] <;> omega)
  have hclamp : clampPenalty (scalePenalty bc (sumPenalty (pairListOf (buildTimeMap params bc
      (statusAfterLatch s bc.CurrentBlock.NumberU64 b0) (b0 :: rest))))) = 0 := by
    rw [clampPenalty, if_pos hscaled]
  refine ⟨_, rfl, hscaled, hclamp, ?_⟩
  show verdictOf _ = none
  rw [hclamp]
  exact verdictOf_zero

/-- Witness for `clamping_above_tip`: tip 100 with candidates 101, 102, 103 and
minimum segment length 3. -/
theorem clamping_above_tip_witness :
    ∃ o, checkChainForAttack ⟨0, 3⟩ (chainAt 100 100000000) true
        (⟨101, 0⟩ :: blocksAt [102, 103]) = some o ∧
      o.scaled < 0 ∧ o.penalty = 0 ∧ o.err = none :=
  clamping_above_tip ⟨0, 3⟩ (chainAt 100 100000000) true ⟨101, 0⟩ (blocksAt [102, 103])
    (by decide) (by decide) (by decide) (by decide) (by decide)

/-! Section: Order of the candidates, repeated calls -/

theorem buildTimeMap_values (params : Params) (bc : BlockChain) (s : Bool) (blocks : Blocks) :
    ∀ e ∈ buildTimeMap params bc s blocks,
      e.Value = calculatePenaltyTimeForBlock bc.CurrentBlock.NumberU64 e.Key := by
  unfold buildTimeMap
  split
  · split
    · exact fillTimeMap_values _ _ [] (by simp)
    · simp
  · simp

theorem buildTimeMap_nodup (params : Params) (bc : BlockChain) (s : Bool) (blocks : Blocks) :
    ((buildTimeMap params bc s blocks).map Pair.Key).Nodup := by
  unfold buildTimeMap
  split
  · split
    · exact fillTimeMap_nodup _ _ [] (by simp)
    · simp
  · simp

theorem buildTimeMap_perm (params : Params) (bc : BlockChain) (s : Bool)
    (blocks1 blocks2 : Blocks) (h : List.Perm blocks1 blocks2) :
    List.Perm (buildTimeMap params bc s blocks1) (buildTimeMap params bc s blocks2) := by
  unfold buildTimeMap
  rw [h.length_eq]
  split
  · split
    · refine (fillTimeMap_perm _ blocks1).trans (List.Perm.trans ?_ (fillTimeMap_perm _ blocks2).symm)
      apply List.Perm.map
      unfold distinctHeights
      exact (h.map Block.NumberU64).dedup
    · exact List.Perm.refl _
  · exact List.Perm.refl _

/-- C9. Aggregation order-independence: with the incoming sync status true, two
candidate sequences that are permutations of each other (the first non-empty)
both get a result, with the same height-to-penalty entries in the penalty map,
the same sorted pair list, the same total penalty, the same verdict and the
same sync status. -/
theorem permutation_invariance (params : Params) (bc : BlockChain) (b1 : Block)
    (rest1 blocks2 : Blocks) (h : List.Perm (b1 :: rest1) blocks2) :
    ∃ o1 o2, checkChainForAttack params bc true (b1 :: rest1) = some o1 ∧
      checkChainForAttack params bc true blocks2 = some o2 ∧
      (∀ k, mapGet o1.timeMap k = mapGet o2.timeMap k) ∧
      o1.p = o2.p ∧ o1.scaled = o2.scaled ∧ o1.penalty = o2.penalty ∧ o1.err = o2.err ∧
      o1.syncStatus = o2.syncStatus := by
  cases blocks2 with
  | nil => exact absurd h.length_eq (by simp)
  | cons b2 rest2 =>
    rw [checkChainForAttack_cons, checkChainForAttack_cons]
    have hs1 : statusAfterLatch true bc.CurrentBlock.NumberU64 b1 = true := by
      simp [statusAfterLatch]
    have hs2 : statusAfterLatch true bc.CurrentBlock.NumberU64 b2 = true := by
      simp [statusAfterLatch]
    rw [hs1, hs2]
    have hperm := buildTimeMap_perm params bc true _ _ h
    have hp : pairListOf (buildTimeMap params bc true (b1 :: rest1)) =
        pairListOf (buildTimeMap params bc true (b2 :: rest2)) :=
      sortPairs_eq_of_perm _ _ hperm (buildTimeMap_nodup params bc true _)
    refine ⟨_, _, rfl, rfl, ?_, hp, ?_, ?_, ?_, rfl⟩
    · intro k
      show mapGet (buildTimeMap params bc true (b1 :: rest1)) k =
        mapGet (buildTimeMap params bc true (b2 :: rest2)) k
      rw [mapGet_of_values _ _ (buildTimeMap_values params bc true _),
        mapGet_of_values _ _ (buildTimeMap_values params bc true _)]
      have hm : k ∈ (buildTimeMap params bc true (b1 :: rest1)).map Pair.Key ↔
          k ∈ (buildTimeMap params bc true (b2 :: rest2)).map Pair.Key :=
        (hperm.map Pair.Key).mem_iff
      simp only [hm]
    · show scalePenalty bc (sumPenalty _) = scalePenalty bc (sumPenalty _)
      rw [hp]
    · show clampPenalty (scalePenalty bc (sumPenalty _)) =
        clampPenalty (scalePenalty bc (sumPenalty _))
      rw [hp]
    · show verdictOf (clampPenalty (scalePenalty bc (sumPenalty _))) =
        verdictOf (clampPenalty (scalePenalty bc (sumPenalty _)))
      rw [hp]

/-- Witness for `permutation_invariance`: heights 96, 97, 98, 99, 101 against the
same heights in another order. -/
theorem permutation_invariance_witness :
    ∃ o1 o2, checkChainForAttack ⟨0, 5⟩ (chainAt 100 100000000) true
        (⟨96, 0⟩ :: blocksAt [97, 98, 99, 101]) = some o1 ∧
      checkChainForAttack ⟨0, 5⟩ (chainAt 100 100000000) true
        (blocksAt [101, 99, 98, 97, 96]) = some o2 ∧
      (∀ k, mapGet o1.timeMap k = mapGet o2.timeMap k) ∧
      o1.p = o2.p ∧ o1.scaled = o2.scaled ∧ o1.penalty = o2.penalty ∧ o1.err = o2.err ∧
      o1.syncStatus = o2.syncStatus :=
  permutation_invariance ⟨0, 5⟩ (chainAt 100 100000000) ⟨96, 0⟩ (blocksAt [97, 98, 99, 101])
    (blocksAt [101, 99, 98, 97, 96]) (by decide)

theorem statusAfterLatch_idem (s : Bool) (tip : Nat) (b0 : Block) :
    statusAfterLatch (statusAfterLatch s tip b0) tip b0 = statusAfterLatch s tip b0 := by
  unfold statusAfterLatch
  cases s <;> simp

/-- C10. Idempotence: for a non-empty candidate sequence, the call succeeds, a
second call with the same chain, configuration and candidates that starts from
the sync status left by the first succeeds as well, and it returns the same
verdict and leaves the same sync status (in fact the whole outcome is the
same). -/
theorem second_call_same (params : Params) (bc : BlockChain) (s : Bool) (b0 : Block)
    (rest : Blocks) :
    ∃ o1 o2, checkChainForAttack params bc s (b0 :: rest) = some o1 ∧
      checkChainForAttack params bc o1.syncStatus (b0 :: rest) = some o2 ∧
      o2.err = o1.err ∧ o2.syncStatus = o1.syncStatus ∧ o2 = o1 := by
  obtain ⟨o1, ho1, hs⟩ : ∃ o1, checkChainForAttack params bc s (b0 :: rest) = some o1 ∧
      o1.syncStatus = statusAfterLatch s bc.CurrentBlock.NumberU64 b0 :=
    ⟨_, checkChainForAttack_cons params bc s b0 rest, rfl⟩
  refine ⟨o1, o1, ho1, ?_, rfl, rfl, rfl⟩
  rw [hs, ← ho1, checkChainForAttack_cons, checkChainForAttack_cons]
  simp only [statusAfterLatch_idem]

/-! Section: Skipped scoring, the multiplier, the latch over many calls -/

theorem checkChainForAttack_of_empty_map (params : Params) (bc : BlockChain) (s : Bool)
    (b0 : Block) (rest : Blocks)
    (h : buildTimeMap params bc (statusAfterLatch s bc.CurrentBlock.NumberU64 b0)
      (b0 :: rest) = []) :
    checkChainForAttack params bc s (b0 :: rest) =
      some ⟨statusAfterLatch s bc.CurrentBlock.NumberU64 b0, [], [], 0, 0, none⟩ := by
  rw [checkChainForAttack_cons, h]
  have hp : pairListOf [] = [] := rfl
  have hs : sumPenalty [] = 0 := rfl
  have hc : clampPenalty 0 = 0 := rfl
  rw [hp, hs, scalePenalty_zero, hc, verdictOf_zero]

/-- C11. Shallow fork allowed: for every non-empty candidate sequence whose
length is below the minimum segment length, scoring is skipped (the penalty map
is empty), the total penalty is 0 and the call returns no error, whatever the
candidate heights, tip, difficulty and sync status. -/
theorem shallow_fork_allowed (params : Params) (bc : BlockChain) (s : Bool) (b0 : Block)
    (rest : Blocks) (h : ((b0 :: rest).length : Int) < params.PirlGuardBlockLength) :
    ∃ o, checkChainForAttack params bc s (b0 :: rest) = some o ∧
      o.timeMap = [] ∧ o.p = [] ∧ o.penalty = 0 ∧ o.err = none := by
  have hb : buildTimeMap params bc (statusAfterLatch s bc.CurrentBlock.NumberU64 b0)
      (b0 :: rest) = [] := by
    have hn : ¬ (statusAfterLatch s bc.CurrentBlock.NumberU64 b0 = true ∧
        ((b0 :: rest).length : Int) ≥ params.PirlGuardBlockLength) := by
      intro hc
      omega
    unfold buildTimeMap
    rw [if_neg hn]
    split <;> rfl
  exact ⟨_, checkChainForAttack_of_empty_map params bc s b0 rest hb, rfl, rfl, rfl, rfl⟩

/-- Witness for `shallow_fork_allowed`: tip 1000, three blocks at heights 999,
1000, 1001, minimum segment length 5. -/
theorem shallow_fork_allowed_witness :
    ∃ o, checkChainForAttack ⟨0, 5⟩ (chainAt 1000 100000000) true
        (⟨999, 0⟩ :: blocksAt [1000, 1001]) = some o ∧
      o.timeMap = [] ∧ o.p = [] ∧ o.penalty = 0 ∧ o.err = none :=
  shallow_fork_allowed ⟨0, 5⟩ (chainAt 1000 100000000) true ⟨999, 0⟩ (blocksAt [1000, 1001])
    (by decide)

/-- C12. `calculateMulti` is monotonically non-increasing, and its result always
lies in 1..5. -/
theorem calculateMulti_antitone (d1 d2 : Nat) (h : d1 ≤ d2) :
    calculateMulti d2 ≤ calculateMulti d1 ∧
    (calculateMulti d1 = 1 ∨ calculateMulti d1 = 2 ∨ calculateMulti d1 = 3 ∨
      calculateMulti d1 = 4 ∨ calculateMulti d1 = 5) := by
  unfold calculateMulti
  repeat' split
  all_goals omega

/-- Witness for `calculateMulti_antitone`: difficulties 600000000 and
25000000000. -/
theorem calculateMulti_antitone_witness :
    calculateMulti 25000000000 ≤ calculateMulti 600000000 ∧
    (calculateMulti 600000000 = 1 ∨ calculateMulti 600000000 = 2 ∨
      calculateMulti 600000000 = 3 ∨ calculateMulti 600000000 = 4 ∨
      calculateMulti 600000000 = 5) :=
  calculateMulti_antitone 600000000 25000000000 (by decide)

theorem statusAfterLatch_true (tip : Nat) (b0 : Block) : statusAfterLatch true tip b0 = true := by
  simp [statusAfterLatch]

/-- C13. Sync latch invariant: a finite sequence of calls on non-empty candidate
sequences (arbitrary chains and candidates) runs to the end, and in the list of
sync statuses (the incoming one, then the one after each call) every status
after a `true` one is `true`: no call changes `syncStatus` from true to
false. -/
theorem latch_invariant (params : Params) (s : Bool) (calls : List (BlockChain × Blocks))
    (hne : ∀ c ∈ calls, c.2 ≠ []) :
    ∃ tr, runCalls params s calls = some tr ∧ tr.length = calls.length ∧
      List.Pairwise (fun a b : Bool => a = true → b = true) (s :: tr) := by
  induction calls generalizing s with
  | nil => exact ⟨[], rfl, rfl, by simp⟩
  | cons c calls ih =>
    obtain ⟨bc, blocks⟩ := c
    have hb : blocks ≠ [] := hne (bc, blocks) (List.mem_cons_self _ _)
    cases blocks with
    | nil => exact absurd rfl hb
    | cons b0 rest =>
      obtain ⟨tr, htr, hlen, hpw⟩ := ih (statusAfterLatch s bc.CurrentBlock.NumberU64 b0)
        (fun c hc => hne c (List.mem_cons_of_mem _ hc))
      refine ⟨statusAfterLatch s bc.CurrentBlock.NumberU64 b0 :: tr, ?_, ?_, ?_⟩
      · simp only [runCalls, checkChainForAttack_cons, htr]
      · simp [hlen]
      · rw [List.pairwise_cons] at hpw ⊢
        refine ⟨?_, List.pairwise_cons.2 hpw⟩
        intro b hbm hs
        subst hs
        rcases List.mem_cons.1 hbm with hb1 | hb1
        · rw [hb1]; exact statusAfterLatch_true _ _
        · exact hpw.1 b hb1 (statusAfterLatch_true _ _)

/-- Witness for `latch_invariant`: three calls, the second of which sets the
latch. -/
theorem latch_invariant_witness :
    ∃ tr, runCalls ⟨0, 5⟩ false
        [(chainAt 100 1, blocksAt [50]), (chainAt 100 1, blocksAt [101]),
          (chainAt 100 1, blocksAt [7, 8])] = some tr ∧
      tr.length = [(chainAt 100 1, blocksAt [50]), (chainAt 100 1, blocksAt [101]),
          (chainAt 100 1, blocksAt [7, 8])].length ∧
      List.Pairwise (fun a b : Bool => a = true → b = true) (false :: tr) :=
  latch_invariant ⟨0, 5⟩ false
    [(chainAt 100 1, blocksAt [50]), (chainAt 100 1, blocksAt [101]),
      (chainAt 100 1, blocksAt [7, 8])] (by decide)

/-! Section: Sign of the score, absence of faults, the penalty entries -/

/-- C14 (as amended). For a tip `T` below `2 ^ 64` and a candidate height `C`: when `C < T` and the
difference is below `2 ^ 63` the score is strictly positive; the score is
positive only when `C < T`; and the score is at least `-1` whenever `C` is not
below `T` or the difference is below `2 ^ 63`. -/
theorem calculatePenaltyTimeForBlock_sign (T C : Nat) (hT : T < 2 ^ 64) :
    (C < T → T - C < 2 ^ 63 → 0 < calculatePenaltyTimeForBlock T C) ∧
    (0 < calculatePenaltyTimeForBlock T C → C < T) ∧
    ((C < T → T - C < 2 ^ 63) → -1 ≤ calculatePenaltyTimeForBlock T C) := by
  have hpos : C < T → T - C < 2 ^ 63 → 0 < calculatePenaltyTimeForBlock T C := by
    intro h hd
    simp only [calculatePenaltyTimeForBlock, if_pos h, toInt64]
    rw [subU64_of_le T C hT (Nat.le_of_lt h)]
    omega
  refine ⟨hpos, ?_, ?_⟩
  · intro h
    by_contra hn
    have h1 : ¬ C < T := hn
    by_cases h2 : C = T
    · simp [calculatePenaltyTimeForBlock, h2] at h
    · have h3 : C > T := by omega
      simp [calculatePenaltyTimeForBlock, h1, h2, h3] at h
  · intro h
    by_cases h1 : C < T
    · have := hpos h1 (h h1)
      omega
    · by_cases h2 : C = T
      · simp [calculatePenaltyTimeForBlock, h2]
      · have h3 : C > T := by omega
        simp [calculatePenaltyTimeForBlock, h1, h2, h3]

/-- Witness for `calculatePenaltyTimeForBlock_sign` at tip 1000, candidate 994. -/
theorem calculatePenaltyTimeForBlock_sign_witness :
    0 < calculatePenaltyTimeForBlock 1000 994 :=
  (calculatePenaltyTimeForBlock_sign 1000 994 (by decide)).1 (by decide) (by decide)

/-- C14 (counterexample). At tip `2 ^ 63 + 1000` and candidate height `1000` the
candidate is below the tip, yet the score is `-2 ^ 63`: not positive, and below
`-1`. -/
theorem calculatePenaltyTimeForBlock_below_minus_one :
    (1000 : Nat) < 2 ^ 63 + 1000 ∧ (2 ^ 63 + 1000 : Nat) < 2 ^ 64 ∧
    calculatePenaltyTimeForBlock (2 ^ 63 + 1000) 1000 = -2 ^ 63 ∧
    ¬ (0 < calculatePenaltyTimeForBlock (2 ^ 63 + 1000) 1000) ∧
    calculatePenaltyTimeForBlock (2 ^ 63 + 1000) 1000 < -1 := by
  decide

/-- C15. For a non-empty candidate sequence the call raises no fault: the index
`0` is in range, the latch update returns, the call returns an outcome, the
error is `nil` or `ErrDelayTooHigh`, `nil` exactly when the total is zero, and
the total is never negative. -/
theorem no_internal_fault (params : Params) (bc : BlockChain) (s : Bool) (b0 : Block)
    (rest : Blocks) :
    (b0 :: rest).get? 0 = some b0 ∧
    (∃ s1, updateSyncStatus s bc.CurrentBlock.NumberU64 (b0 :: rest) = some s1) ∧
    ∃ o, checkChainForAttack params bc s (b0 :: rest) = some o ∧
      (o.err = none ∨ o.err = some GuardError.ErrDelayTooHigh) ∧
      (o.err = none ↔ o.penalty = 0) ∧ 0 ≤ o.penalty := by
  refine ⟨rfl, ⟨_, updateSyncStatus_cons s _ b0 rest⟩, ?_⟩
  rw [checkChainForAttack_cons]
  refine ⟨_, rfl, ?_, (verdictOf_clamp _).2, ?_⟩
  · show verdictOf _ = none ∨ verdictOf _ = some GuardError.ErrDelayTooHigh
    generalize clampPenalty _ = z
    by_cases hz : z = 0
    · left; subst hz; exact verdictOf_zero
    · by_cases hp : 0 < z
      · right; exact verdictOf_pos z hp
      · left; simp [verdictOf, hz, hp]
  · show 0 ≤ clampPenalty _
    rw [clampPenalty_eq_max]
    exact le_max_left _ _

theorem buildTimeMap_scored (params : Params) (bc : BlockChain) (s : Bool) (blocks : Blocks)
    (hne : blocks ≠ [])
    (hact : bc.CurrentBlock.NumberU64 > params.PirlGuardActivationBlock)
    (hsync : s = true)
    (hlen : (blocks.length : Int) ≥ params.PirlGuardBlockLength) :
    buildTimeMap params bc s blocks = fillTimeMap bc.CurrentBlock.NumberU64 blocks [] := by
  have h1 : blocks.length > 0 ∧ bc.CurrentBlock.NumberU64 > params.PirlGuardActivationBlock :=
    ⟨List.length_pos.2 hne, hact⟩
  have h2 : s = true ∧ (blocks.length : Int) ≥ params.PirlGuardBlockLength := ⟨hsync, hlen⟩
  rw [buildTimeMap, if_pos h1, if_pos h2]

/-- C16. Penalty-entry invariant: for a candidate sequence that is scored (guard
active, sync status true after the latch update, length at least the minimum),
the sorted pair list is a rearrangement of one entry `(h, score h)` per distinct
candidate height `h`, its keys are strictly ascending, the penalty that is
scaled is the `int64` sum of the entries' values (the exact sum whenever that
fits in `int64`), so a repeated height counts once: tip 1000, five candidates at
height 990, multiplier 5 give the total 50. -/
theorem penalty_entries (params : Params) (bc : BlockChain) (s : Bool) (b0 : Block)
    (rest : Blocks)
    (hact : bc.CurrentBlock.NumberU64 > params.PirlGuardActivationBlock)
    (hsync : statusAfterLatch s bc.CurrentBlock.NumberU64 b0 = true)
    (hlen : ((b0 :: rest).length : Int) ≥ params.PirlGuardBlockLength) :
    (∃ o, checkChainForAttack params bc s (b0 :: rest) = some o ∧
      List.Perm o.p ((distinctHeights (b0 :: rest)).map
        (fun h => (⟨h, calculatePenaltyTimeForBlock bc.CurrentBlock.NumberU64 h⟩ : Pair))) ∧
      List.Pairwise (fun a b : Pair => a.Key < b.Key) o.p ∧
      o.p.length = (distinctHeights (b0 :: rest)).length ∧
      sumPenalty o.p = toInt64 ((o.p.map Pair.Value).sum) ∧
      (-2 ^ 63 ≤ (o.p.map Pair.Value).sum → (o.p.map Pair.Value).sum < 2 ^ 63 →
        sumPenalty o.p = (o.p.map Pair.Value).sum) ∧
      o.scaled = scalePenalty bc (sumPenalty o.p) ∧
      o.penalty = clampPenalty o.scaled) ∧
    (checkChainForAttack ⟨0, 5⟩ (chainAt 1000 100000000) true
      (blocksAt [990, 990, 990, 990, 990])).map (fun o => (o.p, o.penalty)) =
      some ([⟨990, 10⟩], 50) := by
  refine ⟨?_, by decide⟩
  rw [checkChainForAttack_cons]
  have hb := buildTimeMap_scored params bc _ (b0 :: rest) (by simp) hact hsync hlen
  have hperm : List.Perm (pairListOf (buildTimeMap params bc
      (statusAfterLatch s bc.CurrentBlock.NumberU64 b0) (b0 :: rest)))
      ((distinctHeights (b0 :: rest)).map
        (fun h => (⟨h, calculatePenaltyTimeForBlock bc.CurrentBlock.NumberU64 h⟩ : Pair))) := by
    rw [hb]
    exact (sortPairs_perm _).trans (fillTimeMap_perm _ _)
  refine ⟨_, rfl, hperm, ?_, ?_, sumPenalty_eq _, ?_, rfl, rfl⟩
  · exact sortPairs_strict _ (buildTimeMap_nodup params bc _ _)
  · have := hperm.length_eq
    simpa using this
  · intro h1 h2
    show sumPenalty _ = _
    rw [sumPenalty_eq, toInt64_of_range _ h1 h2]

/-- Witness for `penalty_entries`: tip 100, candidates 96, 97, 98, 99, 99. -/
theorem penalty_entries_witness :
    (∃ o, checkChainForAttack ⟨0, 5⟩ (chainAt 100 100000000) true
        (⟨96, 0⟩ :: blocksAt [97, 98, 99, 99]) = some o ∧
      List.Perm o.p ((distinctHeights (⟨96, 0⟩ :: blocksAt [97, 98, 99, 99])).map
        (fun h => (⟨h, calculatePenaltyTimeForBlock
          (chainAt 100 100000000).CurrentBlock.NumberU64 h⟩ : Pair))) ∧
      List.Pairwise (fun a b : Pair => a.Key < b.Key) o.p ∧
      o.p.length = (distinctHeights (⟨96, 0⟩ :: blocksAt [97, 98, 99, 99])).length ∧
      sumPenalty o.p = toInt64 ((o.p.map Pair.Value).sum) ∧
      (-2 ^ 63 ≤ (o.p.map Pair.Value).sum → (o.p.map Pair.Value).sum < 2 ^ 63 →
        sumPenalty o.p = (o.p.map Pair.Value).sum) ∧
      o.scaled = scalePenalty (chainAt 100 100000000) (sumPenalty o.p) ∧
      o.penalty = clampPenalty o.scaled) ∧
    (checkChainForAttack ⟨0, 5⟩ (chainAt 1000 100000000) true
      (blocksAt [990, 990, 990, 990, 990])).map (fun o => (o.p, o.penalty)) =
      some ([⟨990, 10⟩], 50) :=
  penalty_entries ⟨0, 5⟩ (chainAt 100 100000000) true ⟨96, 0⟩ (blocksAt [97, 98, 99, 99])
    (by decide) (by decide) (by decide)

/-! Section: Difficulty and the verdict, the comparison of pairs, order of the candidates -/

theorem penalty_of_call (params : Params) (bc : BlockChain) (s : Bool) (b0 : Block)
    (rest : Blocks) :
    ∃ o, checkChainForAttack params bc s (b0 :: rest) = some o ∧
      o.penalty = clampPenalty (toInt64
        (specRawSum params bc (statusAfterLatch s bc.CurrentBlock.NumberU64 b0) (b0 :: rest) *
          (calculateMulti (Uint64 bc.CurrentBlock.Difficulty) : Int))) ∧
      o.err = verdictOf o.penalty := by
  rw [checkChainForAttack_cons]
  refine ⟨_, rfl, ?_, rfl⟩
  show clampPenalty _ = _
  rw [scaled_of_timeMap, buildTimeMap_sum]

theorem clamp_scaled_antitone (S : Int) (m1 m2 : Nat) (h1 : 1 ≤ m2) (h2 : m2 ≤ m1)
    (h3 : m1 ≤ 5) (hlo : -2 ^ 63 ≤ (m1 : Int) * S) (hhi : (m1 : Int) * S < 2 ^ 63) :
    clampPenalty (toInt64 (S * (m2 : Int))) ≤ clampPenalty (toInt64 (S * (m1 : Int))) := by
  simp only [clampPenalty]
  interval_cases m1 <;> interval_cases m2 <;>
    first
    | omega
    | (rw [toInt64_of_range (S * _) (by omega) (by omega),
        toInt64_of_range (S * _) (by omega) (by omega)]
       split <;> split <;> omega)

theorem calculateMulti_le_of_le (d1 d2 : Nat) (h : d1 ≤ d2) :
    calculateMulti d2 ≤ calculateMulti d1 := by
  unfold calculateMulti
  repeat' split
  all_goals omega

theorem Uint64_chainAt (tip d : Nat) (h : d < 2 ^ 64) :
    Uint64 (chainAt tip d).CurrentBlock.Difficulty = d :=
  Nat.mod_eq_of_lt h

/-- C17 (as amended). Rising difficulty reduces sensitivity: for a fixed
non-empty candidate sequence, tip, configuration and sync status, and
difficulties `d1 ≤ d2` below `2 ^ 64`, when the scaled sum at `d1` fits in
`int64`, both calls return and the total penalty at `d2` is at most the total
penalty at `d1`. -/
theorem total_antitone_in_difficulty (params : Params) (tip d1 d2 : Nat) (s : Bool)
    (b0 : Block) (rest : Blocks) (hd : d1 ≤ d2) (hd2 : d2 < 2 ^ 64)
    (hlo : -2 ^ 63 ≤ (calculateMulti d1 : Int) *
      specRawSum params (chainAt tip d1) (statusAfterLatch s tip b0) (b0 :: rest))
    (hhi : (calculateMulti d1 : Int) *
      specRawSum params (chainAt tip d1) (statusAfterLatch s tip b0) (b0 :: rest) < 2 ^ 63) :
    ∃ o1 o2, checkChainForAttack params (chainAt tip d1) s (b0 :: rest) = some o1 ∧
      checkChainForAttack params (chainAt tip d2) s (b0 :: rest) = some o2 ∧
      o2.penalty ≤ o1.penalty := by
  obtain ⟨o1, h1, hp1, _⟩ := penalty_of_call params (chainAt tip d1) s b0 rest
  obtain ⟨o2, h2, hp2, _⟩ := penalty_of_call params (chainAt tip d2) s b0 rest
  refine ⟨o1, o2, h1, h2, ?_⟩
  rw [hp1, hp2, Uint64_chainAt tip d1 (by omega), Uint64_chainAt tip d2 hd2]
  exact clamp_scaled_antitone _ _ _ (calculateMulti_range d2).1
    (calculateMulti_le_of_le d1 d2 hd) (calculateMulti_range d1).2 hlo hhi

/-- Witness for `total_antitone_in_difficulty`: tip 1000, candidates 990..994,
difficulties 100000000 and 25000000000. -/
theorem total_antitone_in_difficulty_witness :
    ∃ o1 o2, checkChainForAttack ⟨0, 5⟩ (chainAt 1000 100000000) true
        (⟨990, 0⟩ :: blocksAt [991, 992, 993, 994]) = some o1 ∧
      checkChainForAttack ⟨0, 5⟩ (chainAt 1000 25000000000) true
        (⟨990, 0⟩ :: blocksAt [991, 992, 993, 994]) = some o2 ∧
      o2.penalty ≤ o1.penalty :=
  total_antitone_in_difficulty ⟨0, 5⟩ 1000 100000000 25000000000 true ⟨990, 0⟩
    (blocksAt [991, 992, 993, 994]) (by decide) (by decide) (by decide) (by decide)

/-- C17 (counterexample). At tip 1000 with candidates 990..994 (synced, minimum
length 5, no `int64` overflow) the total is 40 at difficulty 60000000000 and 200
at the larger difficulty `2 ^ 64`, whose low 64 bits are 0: the total rises with
the difficulty. -/
theorem total_rises_past_uint64 :
    (60000000000 : Nat) ≤ 2 ^ 64 ∧
    (checkChainForAttack ⟨0, 5⟩ (chainAt 1000 60000000000) true
      (blocksAt [990, 991, 992, 993, 994])).map (fun o => o.penalty) = some 40 ∧
    (checkChainForAttack ⟨0, 5⟩ (chainAt 1000 (2 ^ 64)) true
      (blocksAt [990, 991, 992, 993, 994])).map (fun o => o.penalty) = some 200 ∧
    ¬ ((200 : Int) ≤ 40) := by
  decide

/-- C18 (the code at the failing input). On the pair list `[(8, 2), (9, 1)]`,
which the guard builds for tip 10 and candidates 9, 8, `Less 0 1` is true
although the first value is not below the second, `Less 1 0` is false although
the second value is below the first, and sorting puts the pairs in ascending
key order, which here is descending value order. -/
theorem Less_compares_keys :
    PairList.Less [⟨8, 2⟩, ⟨9, 1⟩] 0 1 = some true ∧
    ¬ ((⟨8, 2⟩ : Pair).Value < (⟨9, 1⟩ : Pair).Value) ∧
    PairList.Less [⟨8, 2⟩, ⟨9, 1⟩] 1 0 = some false ∧
    (⟨9, 1⟩ : Pair).Value < (⟨8, 2⟩ : Pair).Value ∧
    sortPairs [⟨9, 1⟩, ⟨8, 2⟩] = [⟨8, 2⟩, ⟨9, 1⟩] ∧
    (checkChainForAttack ⟨0, 2⟩ (chainAt 10 100000000) true (blocksAt [9, 8])).map
      (fun o => o.p) = some [⟨8, 2⟩, ⟨9, 1⟩] := by
  decide

theorem verdictOf_clamp_scaled (S : Int) (m : Nat) (h1 : 1 ≤ m) (h2 : m ≤ 5)
    (hlo : -2 ^ 63 ≤ 5 * S) (hhi : 5 * S < 2 ^ 63) :
    verdictOf (clampPenalty (toInt64 (S * (m : Int)))) =
      if 0 < S then some GuardError.ErrDelayTooHigh else none := by
  have hfit : toInt64 (S * (m : Int)) = S * (m : Int) := by
    interval_cases m <;> (rw [toInt64_of_range] <;> omega)
  rw [hfit]
  by_cases hS : 0 < S
  · have hpos : 0 < clampPenalty (S * (m : Int)) := by
      simp only [clampPenalty]
      interval_cases m <;> (split <;> omega)
    rw [verdictOf_pos _ hpos, if_pos hS]
  · have hzero : clampPenalty (S * (m : Int)) = 0 := by
      simp only [clampPenalty]
      interval_cases m <;> (split <;> omega)
    rw [hzero, verdictOf_zero, if_neg hS]

/-- C19. The verdict does not depend on difficulty: for a non-empty candidate
sequence, tip, configuration and incoming sync status such that five times the
raw sum fits in `int64`, the calls at any two difficulties (of any size) both
return, with the same verdict and the same sync status. -/
theorem verdict_independent_of_difficulty (params : Params) (tip d1 d2 : Nat) (s : Bool)
    (b0 : Block) (rest : Blocks)
    (hlo : -2 ^ 63 ≤ 5 *
      specRawSum params (chainAt tip d1) (statusAfterLatch s tip b0) (b0 :: rest))
    (hhi : 5 *
      specRawSum params (chainAt tip d1) (statusAfterLatch s tip b0) (b0 :: rest) < 2 ^ 63) :
    ∃ o1 o2, checkChainForAttack params (chainAt tip d1) s (b0 :: rest) = some o1 ∧
      checkChainForAttack params (chainAt tip d2) s (b0 :: rest) = some o2 ∧
      o1.err = o2.err ∧ o1.syncStatus = o2.syncStatus := by
  obtain ⟨o1, h1, hp1, he1⟩ := penalty_of_call params (chainAt tip d1) s b0 rest
  obtain ⟨o2, h2, hp2, he2⟩ := penalty_of_call params (chainAt tip d2) s b0 rest
  refine ⟨o1, o2, h1, h2, ?_, ?_⟩
  · rw [he1, he2, hp1, hp2]
    have e1 := verdictOf_clamp_scaled _ _ (calculateMulti_range (Uint64 d1)).1
      (calculateMulti_range (Uint64 d1)).2 hlo hhi
    have e2 := verdictOf_clamp_scaled _ _ (calculateMulti_range (Uint64 d2)).1
      (calculateMulti_range (Uint64 d2)).2 hlo hhi
    exact e1.trans e2.symm
  · rw [checkChainForAttack_cons] at h1 h2
    cases h1
    cases h2
    rfl

/-- Witness for `verdict_independent_of_difficulty`: tip 1000, candidates
990..994, difficulties 100000000 and 60000000000. -/
theorem verdict_independent_of_difficulty_witness :
    ∃ o1 o2, checkChainForAttack ⟨0, 5⟩ (chainAt 1000 100000000) true
        (⟨990, 0⟩ :: blocksAt [991, 992, 993, 994]) = some o1 ∧
      checkChainForAttack ⟨0, 5⟩ (chainAt 1000 60000000000) true
        (⟨990, 0⟩ :: blocksAt [991, 992, 993, 994]) = some o2 ∧
      o1.err = o2.err ∧ o1.syncStatus = o2.syncStatus :=
  verdict_independent_of_difficulty ⟨0, 5⟩ 1000 100000000 60000000000 true ⟨990, 0⟩
    (blocksAt [991, 992, 993, 994]) (by decide) (by decide)

/-- C20. With the incoming sync status false the verdict depends on the order of
the candidates: at tip 100, activation height 0, minimum segment length 5 and
difficulty 100000000, the sequence 101, 99, 98, 97, 96 sets the latch and is
rejected with total 45, while its permutation 99, 101, 98, 97, 96 leaves the
latch false, skips scoring and is accepted. -/
theorem verdict_depends_on_first_candidate :
    List.Perm (blocksAt [101, 99, 98, 97, 96]) (blocksAt [99, 101, 98, 97, 96]) ∧
    (checkChainForAttack ⟨0, 5⟩ (chainAt 100 100000000) false
      (blocksAt [101, 99, 98, 97, 96])).map (fun o => (o.syncStatus, o.penalty, o.err)) =
      some (true, 45, some GuardError.ErrDelayTooHigh) ∧
    (checkChainForAttack ⟨0, 5⟩ (chainAt 100 100000000) false
      (blocksAt [99, 101, 98, 97, 96])).map (fun o => (o.syncStatus, o.penalty, o.err)) =
      some (false, 0, none) := by
  decide

end PirlGuard
